import Mathlib

/-!
Verification of the Starry ECS core, a shallow embedding of `src/lib.rs` and
`src/systems.rs`.

Modelling decisions, in one place:

* A Rust type is represented by its runtime identity: a `Ty` bundling the
  `TypeId` (an injective natural number) and the `type_name` string, exactly
  the two pieces of runtime information the store keeps about a type.
* The erased values (`dyn Component` / `dyn Resource`) are drawn from one
  type parameter `V`; a concrete scenario instantiates `V`.
* `World` in `lib.rs` has four fields: `components`, `systems`,
  `starting_systems`, `resources`.  The two lock-guarded stores
  (`components`, `resources`) are grouped into `StoreState`, because a
  system (`fn(&World)`) can observe the whole world but can only mutate the
  lock-guarded store; a system is therefore embedded as a function
  `StoreState V → StoreState V`, its effect on the store.
* `HashMap<TypeId, _>` and `HashMap<i32, Vec<SystemType>>` are embedded as
  association lists with `List.lookup`; the `entry(..).or_insert` pattern of
  `add_resource` and `add_system` keeps their keys distinct, which is the
  `HashMap` invariant.
* `Vec::sort` on the collected keys sorts them ascending; it is embedded as
  `List.insertionSort (· ≤ ·)`, which is extensionally the unique ascending
  reordering on the distinct keys the scheduler feeds it.
* Rayon's `par_iter().map(run).collect()` launches a group concurrently and
  blocks until every member finished; its state effect is embedded as a
  sequential left fold over the group (an arbitrary linearization, exact
  whenever a group has at most one member), and the launch order of the
  groups is recorded by an explicit key trace.
-/

namespace Starry

/-- Runtime identity of a Rust type: its `TypeId` (modelled as a natural
number, distinct types have distinct ids) together with its `type_name`. -/
structure Ty where
  id : Nat
  name : String
deriving DecidableEq

/-- The error type of the `try_get` functions (`StarryError` in lib.rs). -/
inductive StarryError where
  | ComponentNotFound (name : String)
  | ResourceNotFound (name : String)
deriving DecidableEq

/-- The lock-guarded data of a `World`: the vector of component slots, each
a value paired with the `TypeId` tag it was registered under, and the
resource map from `TypeId` to the stored resource value. -/
structure StoreState (V : Type) where
  components : List (V × Nat)
  resources : List (Nat × V)
deriving DecidableEq

/-- `SystemType = fn(world: &World)`: a system observes the world and
mutates only the lock-guarded store, so its effect is a store transformer. -/
def SysT (V : Type) : Type := StoreState V → StoreState V

/-- The `World` aggregate of lib.rs: the lock-guarded store plus the map
from ordering key to the systems registered under it and the startup
system list. -/
structure World (V : Type) where
  store : StoreState V
  systems : List (Int × List (SysT V))
  starting_systems : List (SysT V)

/-- `World::new`: empty components, systems, starting systems, resources. -/
def World.new (V : Type) : World V :=
  { store := { components := [], resources := [] },
    systems := [], starting_systems := [] }

/-- `World::add_component::<T>(component)`: pushes a fresh slot holding the
value, tagged with `TypeId::of::<T>()`, onto the component vector. -/
def World.add_component (w : World V) (t : Ty) (v : V) : World V :=
  { w with store := { w.store with components := w.store.components ++ [(v, t.id)] } }

/-- `World::add_system(system_ordering, system)`: `entry(key).or_insert(vec![])`
then `entry(key).and_modify(push)` — if the key is present the system is
appended to its group, otherwise a fresh singleton group is created. -/
def World.add_system (w : World V) (k : Int) (s : SysT V) : World V :=
  { w with systems :=
      if (w.systems.lookup k).isSome then
        w.systems.map (fun p => if p.1 == k then (p.1, p.2 ++ [s]) else p)
      else
        w.systems ++ [(k, [s])] }

/-- `World::add_startup_system(system)`: appended to `starting_systems`. -/
def World.add_startup_system (w : World V) (s : SysT V) : World V :=
  { w with starting_systems := w.starting_systems ++ [s] }

/-- `World::add_resource::<T>(resource)`:
`resources.entry(TypeId::of::<T>()).or_insert(..)` — inserts the slot only
when no slot with that tag exists yet. -/
def World.add_resource (w : World V) (t : Ty) (v : V) : World V :=
  { w with store := { w.store with resources :=
      if (w.store.resources.lookup t.id).isSome then w.store.resources
      else w.store.resources ++ [(t.id, v)] } }

/-- `World::try_get_resource::<T>`: looks the resource map up at
`TypeId::of::<T>()`; `None` becomes `ResourceNotFound(type_name::<T>())`,
`Some` becomes a read guard on that slot (the narrowing to `T` happens only
on the slot found under `T`'s id).  The guard is embedded as the viewed
value. -/
def StoreState.try_get_resource (st : StoreState V) (t : Ty) :
    Except StarryError V :=
  match st.resources.lookup t.id with
  | some v => .ok v
  | none => .error (.ResourceNotFound t.name)

/-- `World::try_get_resource_mut::<T>`: same lookup as `try_get_resource`,
returning a write guard instead of a read guard. -/
def StoreState.try_get_resource_mut (st : StoreState V) (t : Ty) :
    Except StarryError V :=
  match st.resources.lookup t.id with
  | some v => .ok v
  | none => .error (.ResourceNotFound t.name)

/-- Writing through a resource write guard (`*guard = ..` or a field
update): replaces the value of the slot the guard views, in place. -/
def StoreState.set_resource (st : StoreState V) (id : Nat) (v : V) :
    StoreState V :=
  { st with resources := st.resources.map (fun p => if p.1 == id then (p.1, v) else p) }

/-- The slots `try_get_components::<T>` selects and locks: the filter
`(_, t) if t == TypeId::of::<T>()` over the component vector, in
registration order.  One read (or write) lock is acquired per slot in this
list, and only slots in this list are ever narrowed to `T`. -/
def StoreState.matching_slots (st : StoreState V) (t : Ty) : List (V × Nat) :=
  st.components.filter (fun s => s.2 == t.id)

/-- The guard vector `comps` built inside `try_get_components` (and its
`mut` twin): one guard per matching slot, each embedded as the value it
views, in slot order. -/
def StoreState.component_guards (st : StoreState V) (t : Ty) : List V :=
  (st.matching_slots t).map Prod.fst

/-- `World::try_get_components::<T>`: filters the component slots by `T`'s
id, maps each selected slot to a read guard (`comps`), and fails with
`ComponentNotFound(type_name::<T>())` when `comps.len() == 0`. -/
def StoreState.try_get_components (st : StoreState V) (t : Ty) :
    Except StarryError (List V) :=
  if (st.component_guards t).length == 0 then .error (.ComponentNotFound t.name)
  else .ok (st.component_guards t)

/-- `World::try_get_components_mut::<T>`: identical selection to
`try_get_components`, acquiring write locks instead of read locks. -/
def StoreState.try_get_components_mut (st : StoreState V) (t : Ty) :
    Except StarryError (List V) :=
  if (st.component_guards t).length == 0 then .error (.ComponentNotFound t.name)
  else .ok (st.component_guards t)

/-- The key list `single_step` builds: collect the map's keys (distinct, in
arbitrary `HashMap` order) and sort them ascending (`numbers.sort()`).
`insertionSort` produces the same ascending list as `Vec::sort` does. -/
def sortedKeys (systems : List (Int × List (SysT V))) : List Int :=
  List.insertionSort (· ≤ ·) (systems.map Prod.fst)

/-- One ordering group's fan-out: rayon launches every system of the group
on the shared store and blocks until all finished; the combined store
effect is a linearization, embedded as the left fold in group order. -/
def run_group (group : List (SysT V)) (st : StoreState V) : StoreState V :=
  group.foldl (fun acc s => s acc) st

/-- `World::single_step`: sort the registered keys ascending and run each
key's group in that order, each group joined before the next begins
(`self.systems.get(key).unwrap()` cannot fail since the key came from the
map; the `getD []` default is never taken). -/
def World.single_step (w : World V) : World V :=
  { w with
      store := (sortedKeys w.systems).foldl
        (fun st k => run_group ((w.systems.lookup k).getD []) st) w.store }

/-- `World::start`: runs every startup system once (concurrently in the
code; the store effect is the fold over the list). -/
def World.start (w : World V) : World V :=
  { w with store := w.starting_systems.foldl (fun st s => s st) w.store }

/-- The body of `run`'s `loop { .. }`, transcribed from `World::run`
(lib.rs duplicates the sort-then-fold code of `single_step` verbatim inside
the loop). -/
def World.run_iteration (w : World V) : World V :=
  { w with
      store := (sortedKeys w.systems).foldl
        (fun st k => run_group ((w.systems.lookup k).getD []) st) w.store }

/-- The state of `World::run`'s unconditional loop when it enters iteration
`n`.  `run` never returns (`-> !`, a `loop` with no `break`), so its
semantics is this total family of iterates: every `n` is reached. -/
def World.run_states (w : World V) : Nat → World V
  | 0 => w
  | n + 1 => (w.run_states n).run_iteration

/-- The launch trace of one `single_step`: for each key in the ascending
key order, one event per system of that key's group, in launch order.  An
event records the ordering key its system was registered under. -/
def World.step_key_trace (w : World V) : List Int :=
  (sortedKeys w.systems).flatMap
    (fun k => List.replicate ((w.systems.lookup k).getD []).length k)

/-- `DefaultOrdering` from systems.rs: `#[repr(i32)]` with explicit
discriminants `PreRun = 1`, `Run = 2`, `PostRun = 3`. -/
inductive DefaultOrdering where
  | PreRun
  | Run
  | PostRun
deriving DecidableEq

/-- `impl Into<i32> for DefaultOrdering`: `self as i32`, i.e. the declared
discriminant. -/
def DefaultOrdering.into : DefaultOrdering → Int
  | .PreRun => 1
  | .Run => 2
  | .PostRun => 3

/-- One registration call of the builder API (the operations that construct
a world before ticking). -/
inductive Op (V : Type) where
  | addComponent (t : Ty) (v : V)
  | addResource (t : Ty) (v : V)
  | addSystem (k : Int) (s : SysT V)
  | addStartupSystem (s : SysT V)

/-- Apply one builder call to a world. -/
def applyOp (w : World V) : Op V → World V
  | .addComponent t v => w.add_component t v
  | .addResource t v => w.add_resource t v
  | .addSystem k s => w.add_system k s
  | .addStartupSystem s => w.add_startup_system s

/-- Apply a sequence of builder calls, left to right. -/
def applyOps (ops : List (Op V)) (w : World V) : World V :=
  ops.foldl applyOp w

/-- The component `TypeId` an operation registers, if any. -/
def Op.componentId : Op V → Option Nat
  | .addComponent t _ => some t.id
  | _ => none

/-- The resource `TypeId` an operation registers, if any. -/
def Op.resourceId : Op V → Option Nat
  | .addResource t _ => some t.id
  | _ => none

/-- The component values a builder sequence registers under type `t`, in
registration order. -/
def registeredComponents (ops : List (Op V)) (t : Ty) : List V :=
  ops.filterMap (fun op =>
    match op with
    | .addComponent u v => if u.id == t.id then some v else none
    | _ => none)

/-! ### Association-list helper lemmas (for the `HashMap` embedding) -/

theorem lookup_none_iff {α β : Type _} [BEq α] [LawfulBEq α]
    (l : List (α × β)) (k : α) : l.lookup k = none ↔ k ∉ l.map Prod.fst := by
  induction l with
  | nil => simp
  | cons p l ih =>
    obtain ⟨a, b⟩ := p
    by_cases hk : k = a
    · subst hk
      simp [List.lookup_cons]
    · simp [List.lookup_cons, beq_false_of_ne hk, hk, ih]

theorem lookup_append_of_none {α β : Type _} [BEq α] [LawfulBEq α]
    {l₁ : List (α × β)} (l₂ : List (α × β)) {k : α} (h : l₁.lookup k = none) :
    (l₁ ++ l₂).lookup k = l₂.lookup k := by
  induction l₁ with
  | nil => simp
  | cons p l ih =>
    obtain ⟨a, b⟩ := p
    cases hk : (k == a) with
    | true =>
      exfalso
      simp only [List.lookup_cons, hk] at h
      cases h
    | false =>
      simp only [List.cons_append, List.lookup_cons, hk] at h ⊢
      exact ih h

theorem lookup_of_mem_nodup {α β : Type _} [BEq α] [LawfulBEq α]
    {l : List (α × β)} {k : α} {v : β} (nd : (l.map Prod.fst).Nodup)
    (h : (k, v) ∈ l) : l.lookup k = some v := by
  induction l with
  | nil => cases h
  | cons p l ih =>
    obtain ⟨a, b⟩ := p
    rw [List.map_cons, List.nodup_cons] at nd
    rcases List.mem_cons.mp h with heq | hmem
    · rw [Prod.mk.injEq] at heq
      obtain ⟨h1, h2⟩ := heq
      subst h1
      subst h2
      simp [List.lookup_cons]
    · have hka : k ≠ a := fun hk =>
        nd.1 (List.mem_map.mpr ⟨(k, v), hmem, hk ▸ rfl⟩)
      simp only [List.lookup_cons, beq_false_of_ne hka]
      exact ih nd.2 hmem

/-- C1: every accessor checks the stored runtime type tag before narrowing.
The slots `try_get_components` / `try_get_components_mut` narrow are
exactly `matching_slots`, each of which carries tag `TypeId::of::<T>()`,
and `try_get_resource` / `try_get_resource_mut` only narrow the slot the
resource map stores under `T`'s `TypeId`. -/
theorem accessors_check_tag_before_narrowing {V : Type} (st : StoreState V) (t : Ty) :
    (∀ s ∈ st.matching_slots t, s.2 = t.id) ∧
    (∀ l, st.try_get_components t = .ok l → l = (st.matching_slots t).map Prod.fst) ∧
    (∀ l, st.try_get_components_mut t = .ok l → l = (st.matching_slots t).map Prod.fst) ∧
    (∀ v, st.try_get_resource t = .ok v → st.resources.lookup t.id = some v) ∧
    (∀ v, st.try_get_resource_mut t = .ok v → st.resources.lookup t.id = some v) := by
  refine ⟨?_, ?_, ?_, ?_, ?_⟩
  · intro s hs
    have := List.mem_filter.mp hs
    simpa using this.2
  · intro l h
    unfold StoreState.try_get_components at h
    split at h
    · cases h
    · cases h; rfl
  · intro l h
    unfold StoreState.try_get_components_mut at h
    split at h
    · cases h
    · cases h; rfl
  · intro v h
    unfold StoreState.try_get_resource at h
    split at h
    · cases h; assumption
    · cases h
  · intro v h
    unfold StoreState.try_get_resource_mut at h
    split at h
    · cases h; assumption
    · cases h

/-- Witness for C1 at a concrete store: a store holding one component slot
tagged 3 and one resource slot under id 4. -/
theorem accessors_check_tag_witness :
    (∀ s ∈ (StoreState.mk [((7 : Int), 3)] [(4, 9)]).matching_slots ⟨3, "T"⟩,
        s.2 = (Ty.mk 3 "T").id) ∧
    (StoreState.mk [((7 : Int), 3)] [(4, 9)]).resources.lookup (Ty.mk 4 "R").id = some 9 :=
  ⟨(accessors_check_tag_before_narrowing (StoreState.mk [((7 : Int), 3)] [(4, 9)]) ⟨3, "T"⟩).1,
   (accessors_check_tag_before_narrowing (StoreState.mk [((7 : Int), 3)] [(4, 9)]) ⟨4, "R"⟩).2.2.2.1
     9 rfl⟩

/-- C3: registering a second resource of an already-registered type is
silently ignored — the whole world is unchanged (so components, systems and
starting systems in particular), and reading the resource afterwards still
yields the first registered value. -/
theorem add_resource_first_wins {V : Type} (w : World V) (t : Ty) (v1 v2 : V)
    (h : w.store.resources.lookup t.id = some v1) :
    w.add_resource t v2 = w ∧
    (w.add_resource t v2).store.try_get_resource t = .ok v1 := by
  have hs : (w.store.resources.lookup t.id).isSome := by rw [h]; rfl
  have he : w.add_resource t v2 = w := by
    simp [World.add_resource, hs]
  refine ⟨he, ?_⟩
  rw [he]
  unfold StoreState.try_get_resource
  rw [h]

/-- Witness for C3: a world holding resource id 1 with value 5; registering
9 under the same id leaves the world unchanged and reading yields 5. -/
theorem add_resource_first_wins_witness :
    ((World.new Int).add_resource ⟨1, "R"⟩ 5).add_resource ⟨1, "R"⟩ 9 =
        (World.new Int).add_resource ⟨1, "R"⟩ 5 ∧
    (((World.new Int).add_resource ⟨1, "R"⟩ 5).add_resource ⟨1, "R"⟩ 9).store.try_get_resource
        ⟨1, "R"⟩ = .ok 5 :=
  add_resource_first_wins ((World.new Int).add_resource ⟨1, "R"⟩ 5) ⟨1, "R"⟩ 5 9 rfl

/-! ### Structure of worlds built by the registration API -/

/-- The component slots a builder sequence pushes, in order. -/
def componentSlots (ops : List (Op V)) : List (V × Nat) :=
  ops.filterMap (fun op =>
    match op with
    | .addComponent t v => some (v, t.id)
    | _ => none)

theorem components_applyOps {V : Type} (ops : List (Op V)) (w : World V) :
    (applyOps ops w).store.components = w.store.components ++ componentSlots ops := by
  induction ops generalizing w with
  | nil => simp [applyOps, componentSlots]
  | cons op ops ih =>
    have hstep : applyOps (op :: ops) w = applyOps ops (applyOp w op) := rfl
    cases op with
    | addComponent t v =>
      rw [hstep, ih]
      simp [applyOp, World.add_component, componentSlots, List.filterMap_cons,
        List.append_assoc]
    | addResource t v =>
      rw [hstep, ih]
      simp [applyOp, World.add_resource, componentSlots, List.filterMap_cons]
    | addSystem k s =>
      rw [hstep, ih]
      simp [applyOp, World.add_system, componentSlots, List.filterMap_cons]
    | addStartupSystem s =>
      rw [hstep, ih]
      simp [applyOp, World.add_startup_system, componentSlots, List.filterMap_cons]

theorem resources_lookup_none_applyOps {V : Type} (ops : List (Op V)) (w : World V)
    (i : Nat) (hops : ∀ op ∈ ops, op.resourceId ≠ some i)
    (hw : w.store.resources.lookup i = none) :
    (applyOps ops w).store.resources.lookup i = none := by
  induction ops generalizing w with
  | nil => exact hw
  | cons op ops ih =>
    have hop := hops op (List.mem_cons_self op ops)
    have hrest : ∀ op' ∈ ops, Op.resourceId op' ≠ some i :=
      fun o ho => hops o (List.mem_cons_of_mem _ ho)
    cases op with
    | addComponent t v => exact ih (applyOp w (.addComponent t v)) hrest hw
    | addSystem k s => exact ih (applyOp w (.addSystem k s)) hrest hw
    | addStartupSystem s => exact ih (applyOp w (.addStartupSystem s)) hrest hw
    | addResource t v =>
      apply ih (applyOp w (.addResource t v)) hrest
      show (w.add_resource t v).store.resources.lookup i = none
      unfold World.add_resource
      by_cases hc : (w.store.resources.lookup t.id).isSome
      · simpa [hc] using hw
      · have hne : i ≠ t.id := by
          intro he
          exact hop (by simp [Op.resourceId, he])
        simp only [hc, if_false, Bool.false_eq_true]
        rw [lookup_append_of_none _ hw]
        simp [List.lookup_cons, beq_false_of_ne hne]

theorem componentSlots_filter_none {V : Type} (ops : List (Op V)) (i : Nat)
    (h : ∀ op ∈ ops, op.componentId ≠ some i) :
    (componentSlots ops).filter (fun s => s.2 == i) = [] := by
  induction ops with
  | nil => rfl
  | cons op ops ih =>
    have hop := h op (List.mem_cons_self op ops)
    have hrest : ∀ o ∈ ops, Op.componentId o ≠ some i :=
      fun o ho => h o (List.mem_cons_of_mem _ ho)
    cases op with
    | addComponent t v =>
      have hne : t.id ≠ i := fun he => hop (by simp [Op.componentId, he])
      simp only [componentSlots, List.filterMap_cons]
      simp only [componentSlots] at ih
      rw [List.filter_cons_of_neg (by simpa using hne)]
      exact ih hrest
    | addResource t v =>
      simp only [componentSlots, List.filterMap_cons]
      simp only [componentSlots] at ih
      exact ih hrest
    | addSystem k s =>
      simp only [componentSlots, List.filterMap_cons]
      simp only [componentSlots] at ih
      exact ih hrest
    | addStartupSystem s =>
      simp only [componentSlots, List.filterMap_cons]
      simp only [componentSlots] at ih
      exact ih hrest

/-- C2: a type never registered as a component reads back as
`ComponentNotFound` with its type name, and a type never registered as a
resource reads back as `ResourceNotFound` with its type name, in any world
built by the registration API. -/
theorem never_registered_not_found {V : Type} (ops : List (Op V)) (tc tr : Ty)
    (hc : ∀ op ∈ ops, op.componentId ≠ some tc.id)
    (hr : ∀ op ∈ ops, op.resourceId ≠ some tr.id) :
    (applyOps ops (World.new V)).store.try_get_components tc =
        .error (.ComponentNotFound tc.name) ∧
    (applyOps ops (World.new V)).store.try_get_resource tr =
        .error (.ResourceNotFound tr.name) := by
  constructor
  · have hfilter : (componentSlots ops).filter (fun s => s.2 == tc.id) = [] :=
      componentSlots_filter_none ops tc.id hc
    have hm : (applyOps ops (World.new V)).store.matching_slots tc = [] := by
      unfold StoreState.matching_slots
      rw [components_applyOps]
      simpa [World.new] using hfilter
    simp [StoreState.try_get_components, StoreState.component_guards, hm]
  · have hres : (applyOps ops (World.new V)).store.resources.lookup tr.id = none :=
      resources_lookup_none_applyOps ops (World.new V) tr.id hr rfl
    simp [StoreState.try_get_resource, hres]

/-- Witness for C2: after registering component id 1 and resource id 2,
reading components of id 3 and the resource of id 4 both fail with the
respective NotFound error carrying the requested name. -/
theorem never_registered_not_found_witness :
    (applyOps [Op.addComponent ⟨1, "A"⟩ (5 : Int), Op.addResource ⟨2, "B"⟩ 7]
        (World.new Int)).store.try_get_components ⟨3, "C"⟩ =
      .error (.ComponentNotFound "C") ∧
    (applyOps [Op.addComponent ⟨1, "A"⟩ (5 : Int), Op.addResource ⟨2, "B"⟩ 7]
        (World.new Int)).store.try_get_resource ⟨4, "D"⟩ =
      .error (.ResourceNotFound "D") :=
  never_registered_not_found
    [Op.addComponent ⟨1, "A"⟩ (5 : Int), Op.addResource ⟨2, "B"⟩ 7] ⟨3, "C"⟩ ⟨4, "D"⟩
    (by intro op hop; fin_cases hop <;> simp [Op.componentId])
    (by intro op hop; fin_cases hop <;> simp [Op.resourceId])

theorem componentSlots_filter_registered {V : Type} (ops : List (Op V)) (t : Ty) :
    ((componentSlots ops).filter (fun s => s.2 == t.id)).map Prod.fst =
      registeredComponents ops t := by
  induction ops with
  | nil => rfl
  | cons op ops ih =>
    cases op with
    | addComponent u v =>
      by_cases hu : u.id = t.id
      · simp [componentSlots, registeredComponents, List.filterMap_cons,
          List.filter_cons, hu] at *
        exact ih
      · simp [componentSlots, registeredComponents, List.filterMap_cons,
          List.filter_cons, hu] at *
        exact ih
    | addResource u v =>
      simpa [componentSlots, registeredComponents, List.filterMap_cons] using ih
    | addSystem k s =>
      simpa [componentSlots, registeredComponents, List.filterMap_cons] using ih
    | addStartupSystem s =>
      simpa [componentSlots, registeredComponents, List.filterMap_cons] using ih

/-- C4: `add_component` always appends a fresh slot (it is total and never
fails, with no uniqueness constraint), and a world built by any builder
sequence registering N ≥ 1 instances of type `t` (interleaved with other
registrations) answers `try_get_components t` with exactly those N values
in registration order. -/
theorem add_component_appends_and_reads_back {V : Type} (w : World V) (t : Ty)
    (v : V) (ops : List (Op V)) (h : registeredComponents ops t ≠ []) :
    (w.add_component t v).store.components = w.store.components ++ [(v, t.id)] ∧
    (applyOps ops (World.new V)).store.try_get_components t =
      .ok (registeredComponents ops t) := by
  refine ⟨rfl, ?_⟩
  have hg : (applyOps ops (World.new V)).store.component_guards t =
      registeredComponents ops t := by
    unfold StoreState.component_guards StoreState.matching_slots
    rw [components_applyOps]
    simpa [World.new] using componentSlots_filter_registered ops t
  have hlen : (registeredComponents ops t).length ≠ 0 := by
    intro h0
    exact h (List.length_eq_zero.mp h0)
  unfold StoreState.try_get_components
  rw [hg]
  simp [hlen]

/-- Witness for C4: registering values 1, 3 under type id 1 interleaved
with value 2 under type id 2, then reading type id 1, returns exactly
`[1, 3]`. -/
theorem add_component_appends_witness :
    ((World.new Int).add_component ⟨1, "A"⟩ 4).store.components =
        (World.new Int).store.components ++ [((4 : Int), 1)] ∧
    (applyOps [Op.addComponent ⟨1, "A"⟩ (1 : Int), Op.addComponent ⟨2, "B"⟩ 2,
        Op.addComponent ⟨1, "A"⟩ 3] (World.new Int)).store.try_get_components ⟨1, "A"⟩ =
      .ok [1, 3] :=
  add_component_appends_and_reads_back (World.new Int) ⟨1, "A"⟩ 4
    [Op.addComponent ⟨1, "A"⟩ (1 : Int), Op.addComponent ⟨2, "B"⟩ 2,
      Op.addComponent ⟨1, "A"⟩ 3] (by decide)

/-! ### The resource-mutation scenario of tests/resource.rs -/

/-- The runtime identity of `TestResource` in the scenario world. -/
def testResourceTy : Ty := { id := 1, name := "TestResource" }

/-- The scenario's ticked system: acquires a write guard on `TestResource`
via `try_get_resource_mut` and adds 10 to its `x` field.  The `unwrap`
would abort on the error branch; that branch is unreachable in the
scenario because the resource is registered. -/
def incr_system : SysT Int := fun st =>
  match st.try_get_resource_mut testResourceTy with
  | .ok v => st.set_resource testResourceTy.id (v + 10)
  | .error _ => st

/-- The scenario world: `TestResource { x: 100 }` registered as a resource
and `incr_system` registered as a ticked system under `DefaultOrdering::Run`. -/
def incrWorld : World Int :=
  (((World.new Int).add_resource testResourceTy 100).add_system
    DefaultOrdering.Run.into incr_system)

/-- C6: resource mutation through a write guard persists across steps —
after `start()` and one `single_step()` the resource reads 110, and after
the second `single_step()` it reads 120: each step applies the increment
exactly once and the mutation is visible to the next step. -/
theorem resource_mutation_persists_across_steps :
    (incrWorld.start.single_step).store.try_get_resource testResourceTy = .ok 110 ∧
    ((incrWorld.start.single_step).single_step).store.try_get_resource testResourceTy =
      .ok 120 :=
  ⟨rfl, rfl⟩

/-- C8: with no systems registered, `single_step` is the identity on the
whole world — components, resources and the system lists included — no
matter how often it is invoked, and it is total (no error). -/
theorem single_step_no_systems_identity {V : Type} (w : World V)
    (h : w.systems = []) (n : Nat) : World.single_step^[n] w = w := by
  have h1 : w.single_step = w := by
    have hk : sortedKeys w.systems = [] := by rw [h]; rfl
    unfold World.single_step
    rw [hk]
    rfl
  induction n with
  | zero => rfl
  | succ n ih => rw [Function.iterate_succ_apply', ih, h1]

/-- Witness for C8: a systemless world holding one component and one
resource is untouched by two steps. -/
theorem single_step_no_systems_witness :
    World.single_step^[2]
        (((World.new Int).add_component ⟨1, "C"⟩ 7).add_resource ⟨2, "R"⟩ 9) =
      ((World.new Int).add_component ⟨1, "C"⟩ 7).add_resource ⟨2, "R"⟩ 9 :=
  single_step_no_systems_identity
    (((World.new Int).add_component ⟨1, "C"⟩ 7).add_resource ⟨2, "R"⟩ 9) rfl 2

/-- C7: each iteration of `run`'s unconditional loop has exactly the effect
of one `single_step` call (the loop body is the `single_step` code), so the
state entering iteration `n` is the n-th `single_step` iterate; the family
`run_states` is total in `n` — the loop has no exit condition, `run` never
returns. -/
theorem run_loop_refines_single_step {V : Type} (w : World V) (n : Nat) :
    (∀ u : World V, u.run_iteration = u.single_step) ∧
    w.run_states n = World.single_step^[n] w := by
  refine ⟨fun u => rfl, ?_⟩
  induction n with
  | zero => rfl
  | succ n ih =>
    rw [Function.iterate_succ_apply']
    show (w.run_states n).run_iteration = _
    rw [ih]
    rfl

/-- C9: the built-in ordering tags convert to the strictly increasing
integers 1, 2, 3 (`PreRun < Run < PostRun`), and the scheduler orders any
key set — built-in or caller-defined — by ordinary integer comparison: the
key list it executes is the ascending reordering of the registered keys. -/
theorem default_ordering_strictly_increasing {V : Type}
    (sys : List (Int × List (SysT V))) :
    DefaultOrdering.PreRun.into = 1 ∧ DefaultOrdering.Run.into = 2 ∧
    DefaultOrdering.PostRun.into = 3 ∧
    DefaultOrdering.PreRun.into < DefaultOrdering.Run.into ∧
    DefaultOrdering.Run.into < DefaultOrdering.PostRun.into ∧
    (sortedKeys sys).Sorted (· ≤ ·) ∧ List.Perm (sortedKeys sys) (sys.map Prod.fst) := by
  refine ⟨rfl, rfl, rfl, by decide, by decide, ?_, ?_⟩
  · exact List.sorted_insertionSort (· ≤ ·) (sys.map Prod.fst)
  · exact List.perm_insertionSort (· ≤ ·) (sys.map Prod.fst)

/-! ### Scheduler ordering: the launch trace of one step -/

theorem add_system_keys {V : Type} (w : World V) (k : Int) (s : SysT V)
    (h : (w.systems.map Prod.fst).Nodup) :
    ((w.add_system k s).systems.map Prod.fst).Nodup := by
  unfold World.add_system
  by_cases hc : (w.systems.lookup k).isSome
  · rw [if_pos hc]
    have hkeys : (w.systems.map (fun p => if p.1 == k then (p.1, p.2 ++ [s]) else p)).map
        Prod.fst = w.systems.map Prod.fst := by
      rw [List.map_map]
      apply List.map_congr_left
      intro p _
      show (if (p.1 == k) = true then (p.1, p.2 ++ [s]) else p).1 = p.1
      split
      · rfl
      · rfl
    rw [hkeys]
    exact h
  · rw [if_neg hc]
    rw [List.map_append]
    have hnone : w.systems.lookup k = none := Option.not_isSome_iff_eq_none.mp hc
    have hnotmem : k ∉ w.systems.map Prod.fst := (lookup_none_iff _ _).mp hnone
    refine List.Nodup.append h (List.nodup_singleton k) ?_
    intro a ha hak
    have hak2 : a = k := by simpa using hak
    exact hnotmem (hak2 ▸ ha)

theorem systems_keys_nodup_applyOps {V : Type} (ops : List (Op V)) (w : World V)
    (h : (w.systems.map Prod.fst).Nodup) :
    ((applyOps ops w).systems.map Prod.fst).Nodup := by
  induction ops generalizing w with
  | nil => exact h
  | cons op ops ih =>
    cases op with
    | addComponent t v => exact ih (applyOp w (.addComponent t v)) h
    | addResource t v => exact ih (applyOp w (.addResource t v)) h
    | addStartupSystem s => exact ih (applyOp w (.addStartupSystem s)) h
    | addSystem k s => exact ih (applyOp w (.addSystem k s)) (add_system_keys w k s h)

theorem sorted_flatMap_replicate (ks : List Int) (n : Int → Nat)
    (h : ks.Sorted (· ≤ ·)) :
    (ks.flatMap (fun k => List.replicate (n k) k)).Sorted (· ≤ ·) := by
  induction ks with
  | nil => simp [List.Sorted]
  | cons a ks ih =>
    rw [List.flatMap_cons]
    have hca := List.sorted_cons.mp h
    show List.Pairwise (· ≤ ·) _
    rw [List.pairwise_append]
    refine ⟨?_, ih hca.2, ?_⟩
    · rw [List.pairwise_replicate]
      right
      exact le_refl a
    · intro x hx y hy
      have hxa : x = a := List.eq_of_mem_replicate hx
      obtain ⟨b, hb, hyb⟩ := List.mem_flatMap.mp hy
      have hyb2 : y = b := List.eq_of_mem_replicate hyb
      rw [hxa, hyb2]
      exact hca.1 b hb

theorem count_flatMap_replicate_zero (ks : List Int) (n : Int → Nat) (k : Int)
    (hk : k ∉ ks) : (ks.flatMap (fun x => List.replicate (n x) x)).count k = 0 := by
  induction ks with
  | nil => rfl
  | cons a ks ih =>
    rw [List.flatMap_cons, List.count_append]
    have hka : a ≠ k := fun he => hk (he ▸ List.mem_cons_self a ks)
    rw [List.count_replicate]
    simp only [beq_false_of_ne hka, if_false, Bool.false_eq_true]
    rw [Nat.zero_add]
    exact ih (fun hm => hk (List.mem_cons_of_mem _ hm))

theorem count_flatMap_replicate (ks : List Int) (n : Int → Nat) (k : Int)
    (hk : k ∈ ks) (nd : ks.Nodup) :
    (ks.flatMap (fun x => List.replicate (n x) x)).count k = n k := by
  induction ks with
  | nil => cases hk
  | cons a ks ih =>
    rw [List.flatMap_cons, List.count_append]
    rw [List.nodup_cons] at nd
    rcases List.mem_cons.mp hk with he | hm
    · subst he
      rw [List.count_replicate_self]
      rw [count_flatMap_replicate_zero ks n k nd.1, Nat.add_zero]
    · have hak : a ≠ k := fun he => nd.1 (he ▸ hm)
      rw [List.count_replicate]
      simp only [beq_false_of_ne hak, if_false, Bool.false_eq_true]
      rw [Nat.zero_add]
      exact ih hm nd.2

/-- C5: in any world built by the registration API, the launch trace of
`single_step` is grouped by ordering key in ascending order — the key
sequence of launched systems is non-decreasing, so every system of a lower
key is launched (and, the group being joined before the next begins,
completed) before any system of a strictly higher key — and every
registered group is fully executed: a group registered under key `k` with
`m` systems contributes exactly `m` launches under `k`, the highest key's
group included. -/
theorem single_step_groups_ascending {V : Type} (ops : List (Op V)) :
    ((applyOps ops (World.new V)).step_key_trace).Sorted (· ≤ ·) ∧
    ∀ p ∈ (applyOps ops (World.new V)).systems,
      (applyOps ops (World.new V)).step_key_trace.count p.1 = p.2.length := by
  have nd : (((applyOps ops (World.new V)).systems).map Prod.fst).Nodup :=
    systems_keys_nodup_applyOps ops (World.new V) List.nodup_nil
  have ndsorted : (sortedKeys (applyOps ops (World.new V)).systems).Nodup :=
    (List.perm_insertionSort (· ≤ ·) _).nodup_iff.mpr nd
  constructor
  · exact sorted_flatMap_replicate _ _
      (List.sorted_insertionSort (· ≤ ·) _)
  · intro p hp
    obtain ⟨k, g⟩ := p
    have hlook : (applyOps ops (World.new V)).systems.lookup k = some g :=
      lookup_of_mem_nodup nd hp
    have hmem : k ∈ sortedKeys (applyOps ops (World.new V)).systems :=
      (List.perm_insertionSort (· ≤ ·) _).mem_iff.mpr
        (List.mem_map.mpr ⟨(k, g), hp, rfl⟩)
    unfold World.step_key_trace
    rw [count_flatMap_replicate _ _ _ hmem ndsorted, hlook]
    rfl

/-- Witness for C5: a world with one system under key 2 and one under key
1; the launch trace is key-sorted and the key-2 group contributes exactly
one launch. -/
theorem single_step_groups_witness :
    ((applyOps [Op.addSystem 2 id, Op.addSystem 1 id]
        (World.new Int)).step_key_trace).Sorted (· ≤ ·) ∧
    (applyOps [Op.addSystem 2 id, Op.addSystem 1 id]
        (World.new Int)).step_key_trace.count 2 = 1 :=
  ⟨(single_step_groups_ascending [Op.addSystem 2 id, Op.addSystem 1 id]).1,
   (single_step_groups_ascending [Op.addSystem 2 id, Op.addSystem 1 id]).2
     (2, [id]) (List.mem_cons_self _ _)⟩

/-- C10: the accessor error conditions are exact.  `try_get_components`
errors (with `ComponentNotFound` and the type name) precisely when no slot
carries the requested tag — in which case `matching_slots`, the list of
slots it would lock, is empty, so no lock is acquired — and on success
returns one guard per tagged slot; `try_get_resource` errors (with
`ResourceNotFound`) precisely when the resource map has no entry under the
requested id.  Both functions take the store by shared reference and
return only the guards, leaving the world unchanged. -/
theorem accessor_error_iff {V : Type} (st : StoreState V) (t : Ty) :
    (st.try_get_components t = .error (.ComponentNotFound t.name) ↔
      st.matching_slots t = []) ∧
    (∀ l, st.try_get_components t = .ok l → l.length = (st.matching_slots t).length) ∧
    (st.try_get_resource t = .error (.ResourceNotFound t.name) ↔
      st.resources.lookup t.id = none) := by
  refine ⟨?_, ?_, ?_⟩
  · unfold StoreState.try_get_components
    by_cases hc : (st.component_guards t).length = 0
    · have hnil : st.matching_slots t = [] := by
        have := hc
        unfold StoreState.component_guards at this
        rw [List.length_map] at this
        exact List.length_eq_zero.mp this
      simp [hc, hnil]
    · have hne : st.matching_slots t ≠ [] := by
        intro h0
        exact hc (by simp [StoreState.component_guards, h0])
      simp [hc, hne]
  · intro l h
    unfold StoreState.try_get_components at h
    split at h
    · cases h
    · cases h
      simp [StoreState.component_guards]
  · unfold StoreState.try_get_resource
    cases hl : st.resources.lookup t.id <;> simp [hl]

/-- Witness for C10 at concrete stores: the empty store errors on both
accessors, and a store with one tagged slot returns one guard. -/
theorem accessor_error_iff_witness :
    (StoreState.mk ([] : List (Int × Nat)) []).try_get_components ⟨3, "T"⟩ =
        .error (.ComponentNotFound "T") ∧
    (StoreState.mk ([] : List (Int × Nat)) []).try_get_resource ⟨4, "R"⟩ =
        .error (.ResourceNotFound "R") ∧
    ([(5 : Int)] : List Int).length =
      ((StoreState.mk [((5 : Int), 3)] []).matching_slots ⟨3, "T"⟩).length :=
  ⟨(accessor_error_iff (StoreState.mk ([] : List (Int × Nat)) []) ⟨3, "T"⟩).1.mpr rfl,
   (accessor_error_iff (StoreState.mk ([] : List (Int × Nat)) []) ⟨4, "R"⟩).2.2.mpr rfl,
   (accessor_error_iff (StoreState.mk [((5 : Int), 3)] []) ⟨3, "T"⟩).2.1 [5] rfl⟩

end Starry
